import Mathlib

/-!
Verification development for the Oracle-voice-paji dispatcher.

Shallow embedding of the core pipeline from `src-tauri/src`:
the Timeline Store (a bounded `VecDeque<VoiceEntry>` with a shared id
allocator), the ingestion paths (HTTP `/speak` handler in `lib.rs`,
MQTT message handler in `mqtt.rs`, watcher announce path `queue_voice`
in `watcher.rs`, and the `test_voice` Tauri command), the playback
worker loop (`process_queue`), the session-log tail classifier
(`check_new_lines` and its helpers), and the approval state machine
in `start_session_watcher`.

Machine integers (`u64`, `u32`) are modelled as `Nat`; none of the
verified operations can overflow them on any input a reviewer would
check, and the code performs no wrapping arithmetic.  Wall-clock
`Instant`s are modelled as `Nat` timestamps in seconds; `t.elapsed()`
at time `now` becomes `now - t` (truncated subtraction, matching a
monotone clock).  Mutex locks are modelled as always succeeding: the
lock-poisoning branches (`unwrap_or`/`let Ok ... else`) are dead on
the panic-free executions the claims quantify over.
-/

namespace OracleVoice

/-- Mirror of `VoiceEntry` (lib.rs).  `timestamp` is `DateTime<Utc>` in the
source, modelled as a `Nat` clock reading; `status` is the source's plain
string field with values "queued", "speaking", "done". -/
structure VoiceEntry where
  id : Nat
  timestamp : Nat
  text : String
  voice : String
  rate : Nat
  agent : Option String
  status : String
deriving DecidableEq, Repr

/-- Mirror of `SpeakRequest` (lib.rs): `text` required, the rest optional. -/
structure SpeakRequest where
  text : String
  voice : Option String
  agent : Option String
  rate : Option Nat
deriving DecidableEq, Repr

/-- Mirror of `SpeakResponse` (lib.rs). -/
structure SpeakResponse where
  id : Nat
  status : String
deriving DecidableEq, Repr

/-- The eviction loop shared by every bounded enqueue site:
`while timeline.len() > 100 { timeline.pop_front(); }`. -/
def evictLoop (l : List VoiceEntry) : List VoiceEntry :=
  if l.length > 100 then evictLoop l.tail else l
termination_by l.length
decreasing_by
  cases l with
  | nil => simp at *
  | cons a t => simp [List.length_cons] at *

/-- One bounded enqueue: `push_back(entry)` followed by the eviction loop.
This is the shared shape of the HTTP handler (lib.rs 277-284), the MQTT
handler (mqtt.rs 127-132) and the watcher's `queue_voice` (watcher.rs
309-322). -/
def enqueueEntry (tl : List VoiceEntry) (e : VoiceEntry) : List VoiceEntry :=
  evictLoop (tl ++ [e])

/-- Program counter of the playback worker thread (`process_queue`): either
between iterations (`idle`) or synthesizing the entry it marked speaking
(`busy id`). -/
inductive WorkerPhase where
  | idle
  | busy (id : Nat)
deriving DecidableEq, Repr

/-- The shared fields of `AppState` the claims are about, plus the worker's
program counter.  `timeline` is the `VecDeque` (front = head of the list),
`nextId` the `next_id` allocator cell, `isSpeaking` the `is_speaking` flag. -/
structure SysState where
  timeline : List VoiceEntry
  nextId : Nat
  isSpeaking : Bool
  worker : WorkerPhase
deriving DecidableEq, Repr

/-- Mirror of `AppState::default()`: empty timeline, `next_id = 1`, not speaking; the
worker thread starts at the top of its loop. -/
def initState : SysState :=
  { timeline := [], nextId := 1, isSpeaking := false, worker := .idle }

/-- The entry built by the HTTP `/speak` handler (lib.rs 264-275):
voice defaults to "Samantha", rate defaults to 220, status "queued". -/
def httpEntry (s : SysState) (req : SpeakRequest) (now : Nat) : VoiceEntry :=
  { id := s.nextId
    timestamp := now
    text := req.text
    voice := req.voice.getD "Samantha"
    rate := req.rate.getD 220
    agent := req.agent
    status := "queued" }

/-- The HTTP `/speak` handler (lib.rs 256-287): allocate an id from the
shared `next_id` cell, build the entry, bounded enqueue, and return
`{id, status:"queued"}` synchronously. -/
def httpSpeak (s : SysState) (req : SpeakRequest) (now : Nat) :
    SysState × SpeakResponse :=
  ({ s with
      nextId := s.nextId + 1
      timeline := enqueueEntry s.timeline (httpEntry s req now) },
   { id := s.nextId, status := "queued" })

/-- The entry built by the MQTT speak-topic handler (mqtt.rs 106-125),
identical in shape to the HTTP one. -/
def mqttEntry (s : SysState) (req : SpeakRequest) (now : Nat) : VoiceEntry :=
  { id := s.nextId
    timestamp := now
    text := req.text
    voice := req.voice.getD "Samantha"
    rate := req.rate.getD 220
    agent := req.agent
    status := "queued" }

/-- The MQTT message handler (mqtt.rs 102-155): `payload` is the result of
`serde_json::from_slice::<SpeakRequest>`; a parse failure is logged and
dropped, a parsed request is enqueued exactly like the HTTP path. -/
def mqttHandle (s : SysState) (payload : Option SpeakRequest) (now : Nat) :
    SysState :=
  match payload with
  | none => s
  | some req =>
      { s with
          nextId := s.nextId + 1
          timeline := enqueueEntry s.timeline (mqttEntry s req now) }

/-- The entry built by the watcher announce path `queue_voice`
(watcher.rs 309-318): voice "Samantha", agent `Some "claude"`. -/
def watcherEntry (s : SysState) (text : String) (rate : Nat) (now : Nat) :
    VoiceEntry :=
  { id := s.nextId
    timestamp := now
    text := text
    voice := "Samantha"
    rate := rate
    agent := some "claude"
    status := "queued" }

/-- The watcher announce path `queue_voice` (watcher.rs 298-324): id from
the shared allocator, bounded enqueue. -/
def queue_voice (s : SysState) (text : String) (rate : Nat) (now : Nat) :
    SysState :=
  { s with
      nextId := s.nextId + 1
      timeline := enqueueEntry s.timeline (watcherEntry s text rate now) }

/-- The `test_voice` Tauri command (lib.rs 213-226).  Its id is
`timeline.len() as u64 + 1`, not a value from the shared allocator, and it
performs a plain `push_back` with no eviction loop. -/
def test_voice (s : SysState) (now : Nat) : SysState :=
  { s with
      timeline := s.timeline ++
        [{ id := s.timeline.length + 1
           timestamp := now
           text := "Hello! Voice Tray is working."
           voice := "Samantha"
           rate := 175
           agent := some "Test"
           status := "queued" }] }

/-- The locked find-and-mark block at the top of the worker loop
(tray.rs 106-117 / lib.rs 102-111): find the first entry with status
"queued", set its status to "speaking", and return a clone of it together
with the updated timeline. -/
def markFirstQueued : List VoiceEntry → Option VoiceEntry × List VoiceEntry
  | [] => (none, [])
  | e :: rest =>
      if e.status = "queued" then
        let e' := { e with status := "speaking" }
        (some e', e' :: rest)
      else
        let r := markFirstQueued rest
        (r.1, e :: r.2)

/-- The locked completion block of the worker loop (tray.rs 127-131 /
lib.rs 125-131): find the first entry whose id matches and set its status
to "done". -/
def markDoneById : List VoiceEntry → Nat → List VoiceEntry
  | [], _ => []
  | e :: rest, i =>
      if e.id = i then { e with status := "done" } :: rest
      else e :: markDoneById rest i

/-- Effect of one worker wake-up while idle: atomically (under the store
lock) mark the first queued entry speaking; if one was found the worker
proceeds to synthesis (`busy`) and raises `is_speaking`. -/
def workerStartState (s : SysState) : SysState :=
  match markFirstQueued s.timeline with
  | (some e, tl) => { s with timeline := tl, isSpeaking := true, worker := .busy e.id }
  | (none, tl) => { s with timeline := tl }

/-- Effect of the worker finishing synthesis of the entry with id `i`:
mark it done and drop `is_speaking`; the worker returns to the top of its
loop. -/
def workerFinishState (s : SysState) (i : Nat) : SysState :=
  { s with timeline := markDoneById s.timeline i, isSpeaking := false, worker := .idle }

/-- One interleaved step of the system: an enqueue by any ingestion path
the program exposes (HTTP handler, broker handler, watcher announce path,
or the `test_voice` command), or a worker action.  The worker's
find-and-mark only happens when the thread is at the top of its loop
(`idle`), and `finish` only after a `start` that picked entry `i` — this
is the thread's straight-line control flow in `process_queue`. -/
inductive Step : SysState → SysState → Prop where
  | http (s : SysState) (req : SpeakRequest) (now : Nat) :
      Step s (httpSpeak s req now).1
  | mqtt (s : SysState) (payload : Option SpeakRequest) (now : Nat) :
      Step s (mqttHandle s payload now)
  | watcher (s : SysState) (text : String) (rate : Nat) (now : Nat) :
      Step s (queue_voice s text rate now)
  | testVoice (s : SysState) (now : Nat) :
      Step s (test_voice s now)
  | start (s : SysState) (h : s.worker = .idle) :
      Step s (workerStartState s)
  | finish (s : SysState) (i : Nat) (h : s.worker = .busy i) :
      Step s (workerFinishState s i)

/-- States reachable from process start by interleaving ingestion-path
enqueues and worker steps. -/
inductive Reachable : SysState → Prop where
  | init : Reachable initState
  | step {s s' : SysState} : Reachable s → Step s s' → Reachable s'

/-- The sub-relation of `Step` whose enqueues are exactly the three paths
that draw their id from the shared `next_id` allocator (HTTP, broker,
watcher announce) — every `Step` except the `test_voice` command. -/
inductive AllocStep : SysState → SysState → Prop where
  | http (s : SysState) (req : SpeakRequest) (now : Nat) :
      AllocStep s (httpSpeak s req now).1
  | mqtt (s : SysState) (payload : Option SpeakRequest) (now : Nat) :
      AllocStep s (mqttHandle s payload now)
  | watcher (s : SysState) (text : String) (rate : Nat) (now : Nat) :
      AllocStep s (queue_voice s text rate now)
  | start (s : SysState) (h : s.worker = .idle) :
      AllocStep s (workerStartState s)
  | finish (s : SysState) (i : Nat) (h : s.worker = .busy i) :
      AllocStep s (workerFinishState s i)

/-- States reachable using only allocator-backed enqueues and worker
steps. -/
inductive AllocReachable : SysState → Prop where
  | init : AllocReachable initState
  | step {s s' : SysState} : AllocReachable s → AllocStep s s' → AllocReachable s'

/-- The `test_voice` entry after the worker finished speaking it. -/
def tvDone : VoiceEntry :=
  { id := 1, timestamp := 0, text := "Hello! Voice Tray is working.",
    voice := "Samantha", rate := 175, agent := some "Test", status := "done" }

/-- An HTTP-enqueued entry whose allocator id collides with the
`test_voice` entry's id, stuck in "speaking". -/
def hiSpeaking : VoiceEntry :=
  { id := 1, timestamp := 0, text := "hi", voice := "Samantha", rate := 220,
    agent := none, status := "speaking" }

/-- A later HTTP-enqueued entry the worker has just marked "speaking". -/
def hoSpeaking : VoiceEntry :=
  { id := 2, timestamp := 0, text := "ho", voice := "Samantha", rate := 220,
    agent := none, status := "speaking" }

/-- A reachable state of the full system holding two entries in status
"speaking" at once: reached by `test_voice`, an HTTP enqueue (both
entries get id 1), the worker speaking and finishing both — the finish of
the second finds the first (already done) entry by id and leaves the
second stuck "speaking" — then a further HTTP enqueue picked up by the
worker. -/
def cexState : SysState :=
  { timeline := [tvDone, hiSpeaking, hoSpeaking], nextId := 3,
    isSpeaking := true, worker := .busy 2 }

/-- Number of entries currently in status "speaking". -/
def speakingCount (tl : List VoiceEntry) : Nat :=
  tl.countP (fun e => e.status == "speaking")

/-- Every stored id was issued by the allocator (is below `next_id`). -/
def idsBelow (s : SysState) : Prop :=
  ∀ e ∈ s.timeline, e.id < s.nextId

/-- Stored ids are strictly increasing from front to back (so pairwise
distinct). -/
def idsSorted (s : SysState) : Prop :=
  s.timeline.Pairwise (fun a b => a.id < b.id)

/-- The speaking entries are governed by the worker's program counter:
none while the worker is between iterations, and only the entry the
worker picked while it is synthesizing. -/
def speakOk (s : SysState) : Prop :=
  match s.worker with
  | .idle => ∀ e ∈ s.timeline, e.status ≠ "speaking"
  | .busy i => ∀ e ∈ s.timeline, e.status = "speaking" → e.id = i

/-- The inductive invariant of the interleaved system. -/
def Inv (s : SysState) : Prop :=
  idsBelow s ∧ idsSorted s ∧ speakOk s

/-! ### Log tail cursor (`check_new_lines`, watcher.rs 199-222) -/

/-- Result of the cursor step of `check_new_lines`: the offset recorded in
`file_positions` after the call, and the byte range `[start, stop)` read
from the file, `none` when no read happened. -/
structure CursorOut where
  offset : Nat
  readRange : Option (Nat × Nat)
deriving DecidableEq, Repr

/-- The cursor logic of `check_new_lines` (watcher.rs 203-222) for one file:
`old` is the recorded offset (`none` when the file is seen for the first
time — `or_insert(file_size)` seeds it at the current size); if
`size < offset` the offset resets to 0 (truncation/rotation); if the size
equals the offset nothing is read; otherwise bytes `[offset, size)` are
read and the offset advances to `size`. -/
def checkCursor (old : Option Nat) (size : Nat) : CursorOut :=
  let p0 := old.getD size
  let p1 := if size < p0 then 0 else p0
  if size = p1 then { offset := p1, readRange := none }
  else { offset := size, readRange := some (p1, size) }

/-! ### JSON model and line classifier (watcher.rs 224-296)

`serde_json::Value` is modelled by the `Json` inductive below; numbers are
collapsed to `Int` (no classifier branch reads a number).  A raw log line
is carried together with the result of `serde_json::from_str` on it: the
JSON grammar itself is external to the program under verification, so the
parse result is input data, and every concrete line used below pairs a raw
string with its true parse result. -/

/-- Minimal model of `serde_json::Value`. -/
inductive Json where
  | null
  | bool (b : Bool)
  | num (n : Int)
  | str (s : String)
  | arr (xs : List Json)
  | obj (fields : List (String × Json))

/-- Model of `Value::get(key)` on objects (`None` on non-objects). -/
def Json.getKey : Json → String → Option Json
  | .obj fs, k => fs.lookup k
  | _, _ => none

/-- Model of `Value::as_str()`. -/
def Json.asStr : Json → Option String
  | .str s => some s
  | _ => none

/-- Model of `Value::pointer` restricted to object-key paths — the only
form the watcher uses ("/message/stop_reason", "/message/content",
"/input/description", "/input/subagent_type"). -/
def Json.ptr (j : Json) (path : List String) : Option Json :=
  path.foldl (fun acc k => acc.bind (fun v => v.getKey k)) (some j)

/-- Substring search over character lists: `pat` occurs contiguously in
`hay`. -/
def subSearch (pat : List Char) : List Char → Bool
  | [] => pat.isEmpty
  | c :: rest => List.isPrefixOf pat (c :: rest) || subSearch pat rest

/-- Rust `str::contains(pat)`: substring containment. -/
def strContains (hay pat : String) : Bool :=
  subSearch pat.toList hay.toList

/-- A raw log line together with the result of `serde_json::from_str` on
it (`none` when the line is not valid JSON). -/
structure LogLine where
  raw : String
  parsed : Option Json

/-- Mirror of `LineEvent` (watcher.rs 63-70).  The source's `None` variant
is named `noEvent` here. -/
inductive LineEvent where
  | noEvent
  | completion
  | toolUse (needsApproval : Bool)
  | subagentSpawn (desc : String)
  | toolResult
deriving DecidableEq, Repr

/-- Mirror of `APPROVAL_TOOLS` (watcher.rs 75). -/
def APPROVAL_TOOLS : List String :=
  ["Bash", "Edit", "Write", "MultiEdit", "NotebookEdit"]

/-- Mirror of `extract_task_spawn` (watcher.rs 268-285): first content item
of type "tool_use" named "Task" yields its description, falling back to
`input.subagent_type`, falling back to "agent". -/
def extract_task_spawn (j : Json) : Option String :=
  match (j.ptr ["message", "content"]).bind (fun c =>
      match c with | .arr xs => some xs | _ => none) with
  | none => none
  | some content => go content
where
  go : List Json → Option String
    | [] => none
    | item :: rest =>
        if ((item.getKey "type").bind Json.asStr) ≠ some "tool_use" then go rest
        else if ((item.getKey "name").bind Json.asStr) ≠ some "Task" then go rest
        else
          some ((((item.ptr ["input", "description"]).bind Json.asStr).orElse
            (fun _ => (item.ptr ["input", "subagent_type"]).bind Json.asStr)).getD "agent")

/-- Mirror of `extract_tool_names` (watcher.rs 288-296): names of the
content items of type "tool_use" (items without a string name are
skipped, as in the source's `filter_map`). -/
def extract_tool_names (j : Json) : List String :=
  match (j.ptr ["message", "content"]).bind (fun c =>
      match c with | .arr xs => some xs | _ => none) with
  | none => []
  | some content =>
      (content.filter
          (fun item => ((item.getKey "type").bind Json.asStr) == some "tool_use")).filterMap
        (fun item => (item.getKey "name").bind Json.asStr)

/-- The `needs_approval` computation at watcher.rs 254-256. -/
def needsApprovalOf (j : Json) : Bool :=
  (extract_tool_names j).any (fun name => APPROVAL_TOOLS.contains name)

/-- The substring test guarding the `ToolResult` early return
(watcher.rs 233): the line contains both "tool_result" and
`"type":"user"` — note this is checked on the raw text, before any
JSON parse. -/
def lineToolResult (l : LogLine) : Bool :=
  strContains l.raw "tool_result" && strContains l.raw "\"type\":\"user\""

/-- Outcome of one iteration of the classification loop: `ret e` models a
`return` from `check_new_lines`, `cont r` models falling through to the
next line with running result `r`. -/
inductive LineStepOut where
  | ret (e : LineEvent)
  | cont (r : LineEvent)
deriving DecidableEq, Repr

/-- One iteration of the classification loop over a line
(watcher.rs 226-262): empty lines are skipped; the tool-result substring
test early-returns; lines without the "stop_reason" substring are skipped
(pre-filter); lines that fail to parse are skipped; non-"assistant"
records are skipped; "end_turn" updates the running result to
`completion`; "tool_use" early-returns a subagent spawn if a Task
invocation is present, else updates the running result to `toolUse`. -/
def lineStep (l : LogLine) (res : LineEvent) : LineStepOut :=
  if l.raw = "" then .cont res
  else if lineToolResult l then .ret .toolResult
  else if !(strContains l.raw "stop_reason") then .cont res
  else
    match l.parsed with
    | none => .cont res
    | some j =>
        if ((j.getKey "type").bind Json.asStr) ≠ some "assistant" then .cont res
        else
          match (j.ptr ["message", "stop_reason"]).bind Json.asStr with
          | some "end_turn" => .cont .completion
          | some "tool_use" =>
              match extract_task_spawn j with
              | some d => .ret (.subagentSpawn d)
              | none => .cont (.toolUse (needsApprovalOf j))
          | _ => .cont res

/-- The classification loop of `check_new_lines` over the lines of the
newly read slice, with running result `res` (initially `None`). -/
def classifyGo : List LogLine → LineEvent → LineEvent
  | [], res => res
  | l :: rest, res =>
      match lineStep l res with
      | .ret e => e
      | .cont r => classifyGo rest r

/-- Classification of one batch of new lines (`check_new_lines`,
watcher.rs 224-263). -/
def classifyBatch (ls : List LogLine) : LineEvent :=
  classifyGo ls .noEvent

/-- Whether a line early-returns from the classification loop, and with
which event, independent of the running result. -/
def earlyOf (l : LogLine) : Option LineEvent :=
  match lineStep l .noEvent with
  | .ret e => some e
  | .cont _ => none

/-- Per-line classification, ignoring the batch context. -/
def lineClass (l : LogLine) : LineEvent :=
  match lineStep l .noEvent with
  | .ret e => e
  | .cont r => r

/-- The whole of `check_new_lines` for one observation of one file, after
a successful open and metadata read: the cursor step decides the byte
range to read, and the classification loop runs over the lines decoded
from that range (supplied as `slice`; when nothing is read the function
returns `LineEvent::None` without touching the file). -/
def check_new_lines (old : Option Nat) (size : Nat) (slice : List LogLine) :
    Nat × LineEvent :=
  match checkCursor old size with
  | { offset := o, readRange := none } => (o, .noEvent)
  | { offset := o, readRange := some _ } => (o, classifyBatch slice)

/-- A cheap necessary condition for a string to parse as JSON: after
trimming, it must start with one of the characters a JSON value can start
with.  Used to certify that a concrete raw line is not valid JSON. -/
def jsonStartOk (s : String) : Bool :=
  match s.toList.dropWhile (fun c => c.isWhitespace) with
  | [] => false
  | c :: _ =>
      c = '\x7b' || c = '[' || c = '"' || c = '-' || c.isDigit ||
      c = 't' || c = 'f' || c = 'n'

/-! ### Approval state machine (`start_session_watcher`, watcher.rs 81-194) -/

/-- Mirror of `PermissionMode` (watcher.rs 24-31). -/
inductive PermissionMode where
  | skipAll
  | autoAcceptEdits
  | normal
deriving DecidableEq, Repr

/-- The local state of the watcher loop (watcher.rs 98-101):
`pending_tool_use`, `last_approval_notify` and `last_completion_notify`
are `Option<Instant>` cells modelled as `Nat` timestamps, `permMode` is
the cached permission mode. -/
structure WatcherState where
  pendingToolUse : Option Nat
  lastApprovalNotify : Option Nat
  lastCompletionNotify : Option Nat
  permMode : PermissionMode
deriving DecidableEq, Repr

/-- What wakes the watcher loop: a classified line event from a `.jsonl`
path, a `settings.json` change (carrying the freshly read mode), or the
500 ms `recv_timeout` expiring with nothing to do. -/
inductive Wake where
  | line (ev : LineEvent)
  | settings (m : PermissionMode)
  | idle
deriving DecidableEq, Repr

/-- An announcement queued via `queue_voice`: text and rate. -/
abbrev Announce := String × Nat

/-- The event-handling match of the watcher loop (watcher.rs 142-169),
evaluated at wall-clock time `t`: completion clears the pending marker and
announces "Claude Stop" under a 2 s debounce; a subagent spawn announces
immediately; a needs-approval tool use in Normal mode starts the pending
marker if none is set; a tool result clears it. -/
def handleLine (s : WatcherState) (ev : LineEvent) (t : Nat) :
    WatcherState × List Announce :=
  match ev with
  | .completion =>
      let s := { s with pendingToolUse := none }
      let shouldNotify : Bool :=
        match s.lastCompletionNotify with
        | some l => decide (2 < t - l)
        | none => true
      if shouldNotify then
        ({ s with lastCompletionNotify := some t }, [("Claude Stop", 220)])
      else (s, [])
  | .subagentSpawn d => (s, [("Spawning " ++ d, 230)])
  | .toolUse needsApproval =>
      if s.permMode = .normal && needsApproval && s.pendingToolUse.isNone then
        ({ s with pendingToolUse := some t }, [])
      else (s, [])
  | .toolResult => ({ s with pendingToolUse := none }, [])
  | .noEvent => (s, [])

/-- The settings-change path (watcher.rs 131-139): re-read the mode and,
if it became SkipAll, clear the pending marker. -/
def handleSettings (s : WatcherState) (m : PermissionMode) : WatcherState :=
  let s := { s with permMode := m }
  if m = .skipAll then { s with pendingToolUse := none } else s

/-- The 10-second debounce on approval announcements (watcher.rs 182-184):
`last_approval_notify.map(|t| t.elapsed() > 10).unwrap_or(true)`. -/
def approvalDebounceOk (last : Option Nat) (t : Nat) : Bool :=
  match last with
  | some l => decide (10 < t - l)
  | none => true

/-- The approval-timeout check at the bottom of every loop iteration
(watcher.rs 177-191), at wall-clock time `t`: in Normal mode, a pending
marker older than `APPROVAL_TIMEOUT_SECS = 15` is cleared and, unless the
10 s approval debounce suppresses it, "Action needed, please approve" is
announced. -/
def timerCheck (s : WatcherState) (t : Nat) : WatcherState × List Announce :=
  if s.permMode = .normal then
    match s.pendingToolUse with
    | some t0 =>
        if 15 < t - t0 then
          let s := { s with pendingToolUse := none }
          if approvalDebounceOk s.lastApprovalNotify t then
            ({ s with lastApprovalNotify := some t },
             [("Action needed, please approve", 240)])
          else (s, [])
        else (s, [])
    | none => (s, [])
  else (s, [])

/-- One full iteration of the watcher loop at wall-clock time `t`: handle
the wake-up, then run the approval-timeout check. -/
def loopIter (s : WatcherState) (w : Wake) (t : Nat) :
    WatcherState × List Announce :=
  let (s1, out1) :=
    match w with
    | .line ev => handleLine s ev t
    | .settings m => (handleSettings s m, [])
    | .idle => (s, [])
  let (s2, out2) := timerCheck s1 t
  (s2, out1 ++ out2)

/-- Run the watcher loop over a timed trace of wake-ups, accumulating the
announcements in order. -/
def runWatcher (s : WatcherState) : List (Wake × Nat) →
    WatcherState × List Announce
  | [] => (s, [])
  | (w, t) :: rest =>
      let (s1, out1) := loopIter s w t
      let (s2, out2) := runWatcher s1 rest
      (s2, out1 ++ out2)

/-- Number of "action needed" announcements in an output list. -/
def approvalCount (out : List Announce) : Nat :=
  out.countP (fun a => a.1 == "Action needed, please approve")

/-- The watcher loop's local state at thread start (watcher.rs 98-101),
when the settings file yields the default Normal mode: no notification
timestamps and no pending tool use. -/
def watcherInit : WatcherState :=
  { pendingToolUse := none
    lastApprovalNotify := none
    lastCompletionNotify := none
    permMode := .normal }

/-! ### Concrete log lines for counterexamples and witnesses

Each pairs a raw line with its true `serde_json` parse result. -/

/-- An assistant record spawning a Task subagent with description
"deploy". -/
def spawnL : LogLine :=
  { raw := "\x7b\"type\":\"assistant\",\"message\":\x7b\"stop_reason\":\"tool_use\",\"content\":[\x7b\"type\":\"tool_use\",\"name\":\"Task\",\"input\":\x7b\"description\":\"deploy\"\x7d\x7d]\x7d\x7d"
    parsed := some (.obj [("type", .str "assistant"),
      ("message", .obj [("stop_reason", .str "tool_use"),
        ("content", .arr [.obj [("type", .str "tool_use"), ("name", .str "Task"),
          ("input", .obj [("description", .str "deploy")])]])])]) }

/-- A user record carrying a tool result. -/
def resultL : LogLine :=
  { raw := "\x7b\"type\":\"user\",\"message\":\x7b\"content\":[\x7b\"type\":\"tool_result\"\x7d]\x7d\x7d"
    parsed := some (.obj [("type", .str "user"),
      ("message", .obj [("content", .arr [.obj [("type", .str "tool_result")]])])]) }

/-- A line that is not valid JSON (it starts with a bare word, which no
JSON value can) yet contains both tool-result markers. -/
def badL : LogLine :=
  { raw := "oops tool_result \"type\":\"user\"", parsed := none }

/-- An assistant record invoking the approval-gated Bash tool. -/
def bashL : LogLine :=
  { raw := "\x7b\"type\":\"assistant\",\"message\":\x7b\"stop_reason\":\"tool_use\",\"content\":[\x7b\"type\":\"tool_use\",\"name\":\"Bash\"\x7d]\x7d\x7d"
    parsed := some (.obj [("type", .str "assistant"),
      ("message", .obj [("stop_reason", .str "tool_use"),
        ("content", .arr [.obj [("type", .str "tool_use"), ("name", .str "Bash")]])])]) }

/-- The parsed form of `bashL`. -/
def bashJson : Json :=
  .obj [("type", .str "assistant"),
    ("message", .obj [("stop_reason", .str "tool_use"),
      ("content", .arr [.obj [("type", .str "tool_use"), ("name", .str "Bash")]])])]

/-- The single content item of `bashJson`. -/
def bashItem : Json :=
  .obj [("type", .str "tool_use"), ("name", .str "Bash")]

/-! ## Theorems -/

/-- The eviction loop is exactly a drop of the oldest entries down to the
capacity. -/
theorem evictLoop_eq_drop (l : List VoiceEntry) :
    evictLoop l = l.drop (l.length - 100) := by
  have key : ∀ n (l : List VoiceEntry), l.length ≤ n →
      evictLoop l = l.drop (l.length - 100) := by
    intro n
    induction n with
    | zero =>
        intro l hl
        have : l = [] := List.length_eq_zero.mp (Nat.le_zero.mp hl)
        subst this
        rw [evictLoop]
        simp
    | succ n ih =>
        intro l hl
        rw [evictLoop]
        by_cases h : l.length > 100
        · simp only [h, if_true]
          cases l with
          | nil => simp at h
          | cons a t =>
              have ht : t.length ≤ n := by
                simp [List.length_cons] at hl
                omega
              rw [List.tail_cons, ih t ht]
              have harith : (a :: t).length - 100 = (t.length - 100) + 1 := by
                simp [List.length_cons] at h ⊢
                omega
              rw [harith, List.drop_succ_cons]
        · simp only [h, if_false]
          have : l.length - 100 = 0 := by omega
          simp [this]
  exact key l.length l le_rfl

/-- Everything surviving the eviction loop was in the original list. -/
theorem evictLoop_subset (l : List VoiceEntry) : evictLoop l ⊆ l := by
  rw [evictLoop_eq_drop]
  exact List.drop_subset _ l

/-- The eviction loop preserves any pairwise relation. -/
theorem evictLoop_pairwise {R : VoiceEntry → VoiceEntry → Prop}
    {l : List VoiceEntry} (h : l.Pairwise R) : (evictLoop l).Pairwise R := by
  rw [evictLoop_eq_drop]
  exact h.sublist (List.drop_sublist _ l)

/-- C2: every adapter enqueue (HTTP speak handler, broker message handler,
watcher announce path) is the shared bounded enqueue; the bounded enqueue
leaves at most 100 entries (exactly `min (n+1) 100`), and what it removes
is precisely the oldest (front) entries of the store — a `drop` from the
front of `tl ++ [e]`, performed regardless of the statuses of the dropped
entries. -/
theorem store_capacity_eviction :
    (∀ (tl : List VoiceEntry) (e : VoiceEntry),
        (enqueueEntry tl e).length = min (tl.length + 1) 100 ∧
        enqueueEntry tl e = (tl ++ [e]).drop (tl.length + 1 - 100)) ∧
    (∀ (s : SysState) (req : SpeakRequest) (now : Nat),
        (httpSpeak s req now).1.timeline =
          enqueueEntry s.timeline (httpEntry s req now)) ∧
    (∀ (s : SysState) (req : SpeakRequest) (now : Nat),
        (mqttHandle s (some req) now).timeline =
          enqueueEntry s.timeline (mqttEntry s req now)) ∧
    (∀ (s : SysState) (text : String) (rate now : Nat),
        (queue_voice s text rate now).timeline =
          enqueueEntry s.timeline (watcherEntry s text rate now)) := by
  refine ⟨fun tl e => ?_, fun s req now => rfl, fun s req now => rfl,
    fun s text rate now => rfl⟩
  have hdrop : enqueueEntry tl e = (tl ++ [e]).drop (tl.length + 1 - 100) := by
    rw [enqueueEntry, evictLoop_eq_drop]
    simp
  refine ⟨?_, hdrop⟩
  rw [hdrop]
  simp [List.length_drop]
  omega

/-- C3 counterexample: `test_voice` does not draw from the shared
allocator.  Running `test_voice` on the fresh store and then one HTTP
enqueue yields two entries that both carry id 1 — ids are neither unique
nor allocated by a single shared allocator, refuting the claim as
stated. -/
theorem ids_not_unique_cex :
    ((httpSpeak (test_voice initState 0)
        { text := "hi", voice := none, agent := none, rate := none } 0).1.timeline.map
      (fun e => e.id)) = [1, 1] ∧
    ¬ ((httpSpeak (test_voice initState 0)
        { text := "hi", voice := none, agent := none, rate := none } 0).1.timeline.map
      (fun e => e.id)).Nodup := by
  have h : (httpSpeak (test_voice initState 0)
      { text := "hi", voice := none, agent := none, rate := none } 0).1.timeline.map
        (fun e => e.id) = [1, 1] := by
    simp [httpSpeak, test_voice, initState, enqueueEntry, httpEntry, evictLoop_eq_drop]
  refine ⟨h, ?_⟩
  rw [h]
  decide

/-- C3 (amended): the HTTP handler, the broker handler and the watcher
announce path all obtain their id from the single shared `next_id`
allocator, which starts at 1 and is bumped by exactly one per allocation
(hence strictly increasing over the store's lifetime); the `test_voice`
command instead computes its id as the current timeline length plus one
and leaves the allocator untouched. -/
theorem shared_allocator_spec :
    initState.nextId = 1 ∧
    (∀ (s : SysState) (req : SpeakRequest) (now : Nat),
        (httpSpeak s req now).2.id = s.nextId ∧
        (httpEntry s req now).id = s.nextId ∧
        (httpSpeak s req now).1.nextId = s.nextId + 1) ∧
    (∀ (s : SysState) (req : SpeakRequest) (now : Nat),
        (mqttEntry s req now).id = s.nextId ∧
        (mqttHandle s (some req) now).nextId = s.nextId + 1) ∧
    (∀ (s : SysState) (text : String) (rate now : Nat),
        (watcherEntry s text rate now).id = s.nextId ∧
        (queue_voice s text rate now).nextId = s.nextId + 1) ∧
    (∀ (s : SysState) (now : Nat),
        (test_voice s now).nextId = s.nextId ∧
        (test_voice s now).timeline.map (fun e => e.id) =
          s.timeline.map (fun e => e.id) ++ [s.timeline.length + 1]) := by
  refine ⟨rfl, fun s req now => ⟨rfl, rfl, rfl⟩, fun s req now => ⟨rfl, rfl⟩,
    fun s text rate now => ⟨rfl, rfl⟩, fun s now => ⟨rfl, ?_⟩⟩
  simp [test_voice]

/-- C9 counterexample: a request whose `text` is the empty string is
enqueued like any other — the handler performs no non-emptiness check.
One such request against the fresh store yields a stored entry (with
empty text) and the response `{id: 1, status: "queued"}`, refuting the
claim that an empty-text request enqueues nothing. -/
theorem empty_text_enqueued_cex :
    (httpSpeak initState { text := "", voice := none, agent := none, rate := none }
        0).1.timeline =
      [{ id := 1, timestamp := 0, text := "", voice := "Samantha", rate := 220,
         agent := none, status := "queued" }] ∧
    (httpSpeak initState { text := "", voice := none, agent := none, rate := none }
        0).2 = { id := 1, status := "queued" } := by
  constructor
  · simp [httpSpeak, initState, enqueueEntry, httpEntry, evictLoop_eq_drop]
  · rfl

/-- C9 (amended): the `/speak` handler requires `text` to be present (it
is a non-optional field of the deserialized request) but does not reject
an empty `text`: for every deserialized request — empty text included —
exactly one entry with status "queued" and the request's text is enqueued
(the bounded enqueue being the only store side effect), the response
`{id, status:"queued"}` is returned synchronously, and `rate` defaults to
220 and `voice` to "Samantha" when absent. -/
theorem http_speak_spec :
    ∀ (s : SysState) (req : SpeakRequest) (now : Nat),
      (httpSpeak s req now).1.timeline =
        enqueueEntry s.timeline (httpEntry s req now) ∧
      (httpEntry s req now).status = "queued" ∧
      (httpEntry s req now).text = req.text ∧
      (httpEntry s req now).rate = req.rate.getD 220 ∧
      (httpEntry s req now).voice = req.voice.getD "Samantha" ∧
      (httpSpeak s req now).2 = { id := s.nextId, status := "queued" } ∧
      (httpSpeak s req now).1.nextId = s.nextId + 1 ∧
      (httpSpeak s req now).1.isSpeaking = s.isSpeaking ∧
      (httpSpeak s req now).1.worker = s.worker :=
  fun _ _ _ => ⟨rfl, rfl, rfl, rfl, rfl, rfl, rfl, rfl, rfl⟩

/-- C5: the per-file cursor of `check_new_lines` on every observation:
a first-seen file is seeded at its current size and nothing is read (so
pre-existing lines are never classified); a shrunken file resets the
offset to 0 and the call then reads `[0, size)` (or nothing when the file
shrank to empty); an unchanged size reads nothing and emits
`LineEvent::None`; otherwise exactly `[offset, size)` is read and the
recorded offset advances to `size`. -/
theorem cursor_spec :
    (∀ size : Nat, checkCursor none size = { offset := size, readRange := none }) ∧
    (∀ p size : Nat, size < p →
        checkCursor (some p) size =
          if size = 0 then { offset := 0, readRange := none }
          else { offset := size, readRange := some (0, size) }) ∧
    (∀ p : Nat, checkCursor (some p) p = { offset := p, readRange := none }) ∧
    (∀ p size : Nat, p < size →
        checkCursor (some p) size = { offset := size, readRange := some (p, size) }) ∧
    (∀ (size : Nat) (slice : List LogLine),
        check_new_lines none size slice = (size, .noEvent)) ∧
    (∀ (p : Nat) (slice : List LogLine),
        check_new_lines (some p) p slice = (p, .noEvent)) := by
  refine ⟨fun size => ?_, fun p size h => ?_, fun p => ?_, fun p size h => ?_,
    fun size slice => ?_, fun p slice => ?_⟩
  · simp [checkCursor]
  · simp [checkCursor, h]
  · simp [checkCursor]
  · have h1 : ¬ size < p := Nat.not_lt.mpr (Nat.le_of_lt h)
    have h2 : ¬ size = p := Nat.ne_of_gt h
    simp [checkCursor, h1, h2, Ne.symm h2]
  · simp [check_new_lines, checkCursor]
  · simp [check_new_lines, checkCursor]

/-- Witness for `cursor_spec`: the rotation case at sizes 50 → 37 and the
append case at sizes 10 → 37, evaluated concretely. -/
theorem cursor_spec_witness :
    checkCursor (some 50) 37 = { offset := 37, readRange := some (0, 37) } ∧
    checkCursor (some 10) 37 = { offset := 37, readRange := some (10, 37) } := by
  constructor
  · have h := cursor_spec.2.1 50 37 (by decide)
    simpa using h
  · exact cursor_spec.2.2.2.1 10 37 (by decide)

/-- Whether a line early-returns, and the returned event, do not depend on
the running result; the fall-through value is either the running result or
a value fixed by the line alone. -/
theorem lineStep_shape (l : LogLine) (res : LineEvent) :
    lineStep l res =
      match lineStep l .noEvent with
      | .ret e => .ret e
      | .cont r => .cont (if r = .noEvent then res else r) := by
  unfold lineStep
  by_cases h1 : l.raw = ""
  · simp [h1]
  · by_cases h2 : lineToolResult l
    · simp [h1, h2]
    · by_cases h3 : strContains l.raw "stop_reason"
      · rcases hp : l.parsed with _ | j
        · simp [h1, h2, h3, hp]
        · by_cases h4 : ((j.getKey "type").bind Json.asStr) = some "assistant"
          · rcases hstop : (j.ptr ["message", "stop_reason"]).bind Json.asStr with _ | sr
            · simp [h1, h2, h3, hp, h4, hstop]
            · by_cases hs1 : sr = "end_turn"
              · simp [h1, h2, h3, hp, h4, hstop, hs1]
              · by_cases hs2 : sr = "tool_use"
                · rcases hts : extract_task_spawn j with _ | d
                  · simp [h1, h2, h3, hp, h4, hstop, hs1, hs2, hts]
                  · simp [h1, h2, h3, hp, h4, hstop, hs1, hs2, hts]
                · simp [h1, h2, h3, hp, h4, hstop, hs1, hs2]
          · simp [h1, h2, h3, hp, h4]
      · simp [h1, h2, h3]

/-- A line with an early-return event early-returns it whatever the
running result is. -/
theorem lineStep_of_early {l : LogLine} {e : LineEvent} (h : earlyOf l = some e)
    (res : LineEvent) : lineStep l res = .ret e := by
  unfold earlyOf at h
  rw [lineStep_shape l res]
  rcases hs : lineStep l .noEvent with e' | r
  · simp only [hs] at h ⊢
    simp at h
    rw [h]
  · simp only [hs] at h
    simp at h

/-- A line with no early-return event falls through, leaving the running
result alone unless its own classification is non-trivial. -/
theorem lineStep_of_cont {l : LogLine} (h : earlyOf l = none) (res : LineEvent) :
    lineStep l res = .cont (if lineClass l = .noEvent then res else lineClass l) := by
  rw [lineStep_shape l res]
  unfold earlyOf at h
  unfold lineClass
  rcases hs : lineStep l .noEvent with e | r
  · simp only [hs] at h
    simp at h
  · simp only [hs]

/-- A batch whose prefix falls through and that then reaches an
early-returning line classifies as that line's event, whatever follows. -/
theorem classifyGo_append_early (pre : List LogLine) (l : LogLine)
    (e : LineEvent) (hpre : ∀ x ∈ pre, earlyOf x = none)
    (hl : earlyOf l = some e) (post : List LogLine) (res : LineEvent) :
    classifyGo (pre ++ l :: post) res = e := by
  induction pre generalizing res with
  | nil => simp [classifyGo, lineStep_of_early hl res]
  | cons x xs ih =>
      have hx : earlyOf x = none := hpre x (by simp)
      have hxs : ∀ y ∈ xs, earlyOf y = none := fun y hy => hpre y (by simp [hy])
      simp only [List.cons_append, classifyGo, lineStep_of_cont hx res]
      exact ih hxs _

/-- Over a batch with no early-returning line, the loop computes the last
non-trivial per-line classification. -/
theorem classifyGo_no_early (ls : List LogLine) (res : LineEvent)
    (h : ∀ x ∈ ls, earlyOf x = none) :
    classifyGo ls res =
      (ls.map lineClass).foldl (fun acc e => if e = .noEvent then acc else e) res := by
  induction ls generalizing res with
  | nil => simp [classifyGo]
  | cons x xs ih =>
      have hx := h x (by simp)
      have hxs : ∀ y ∈ xs, earlyOf y = none := fun y hy => h y (by simp [hy])
      simp only [classifyGo, lineStep_of_cont hx res, List.map_cons, List.foldl_cons]
      exact ih _ hxs

/-- A line matching the raw tool-result substring test early-returns
`ToolResult`. -/
theorem earlyOf_toolResult {l : LogLine} (h : lineToolResult l = true) :
    earlyOf l = some .toolResult := by
  have hne : ¬ l.raw = "" := by
    intro hr
    have hfalse : strContains "" "tool_result" = false := by decide
    rw [lineToolResult, hr, hfalse] at h
    simp at h
  unfold earlyOf lineStep
  simp [hne, h]

/-- The five possible outcomes of the classification loop body on a line,
with the starting running result: fall through unchanged, a completion, a
tool use, an early-returned subagent spawn, or an early-returned tool
result (the latter exactly when the raw substring test fires). -/
theorem lineStep_cases (l : LogLine) :
    lineStep l .noEvent = .cont .noEvent ∨
    lineStep l .noEvent = .cont .completion ∨
    (∃ b, lineStep l .noEvent = .cont (.toolUse b)) ∨
    (∃ d, lineStep l .noEvent = .ret (.subagentSpawn d)) ∨
    (lineToolResult l = true ∧ lineStep l .noEvent = .ret .toolResult) := by
  unfold lineStep
  by_cases h1 : l.raw = ""
  · simp [h1]
  · by_cases h2 : lineToolResult l
    · simp [h1, h2]
    · by_cases h3 : strContains l.raw "stop_reason"
      · rcases hp : l.parsed with _ | j
        · simp [h1, h2, h3, hp]
        · by_cases h4 : ((j.getKey "type").bind Json.asStr) = some "assistant"
          · rcases hstop : (j.ptr ["message", "stop_reason"]).bind Json.asStr with _ | sr
            · simp [h1, h2, h3, hp, h4, hstop]
            · by_cases hs1 : sr = "end_turn"
              · simp [h1, h2, h3, hp, h4, hstop, hs1]
              · by_cases hs2 : sr = "tool_use"
                · rcases hts : extract_task_spawn j with _ | d
                  · simp [h1, h2, h3, hp, h4, hstop, hs1, hs2, hts]
                  · simp [h1, h2, h3, hp, h4, hstop, hs1, hs2, hts]
                · simp [h1, h2, h3, hp, h4, hstop, hs1, hs2]
          · simp [h1, h2, h3, hp, h4]
      · simp [h1, h2, h3]

/-- A single-line batch classifies to the line's own classification. -/
theorem classifyBatch_singleton (l : LogLine) : classifyBatch [l] = lineClass l := by
  unfold classifyBatch classifyGo lineClass
  rcases hs : lineStep l .noEvent with e | r <;> simp [hs, classifyGo]

/-- A line classifies as `ToolResult` exactly when the raw substring test
fires — independent of whether it parses as JSON. -/
theorem lineClass_toolResult_iff (l : LogLine) :
    lineClass l = .toolResult ↔ lineToolResult l = true := by
  constructor
  · intro h
    rcases lineStep_cases l with hc | hc | ⟨b, hc⟩ | ⟨d, hc⟩ | ⟨ht, _⟩
    · unfold lineClass at h
      rw [hc] at h
      simp at h
    · unfold lineClass at h
      rw [hc] at h
      simp at h
    · unfold lineClass at h
      rw [hc] at h
      simp at h
    · unfold lineClass at h
      rw [hc] at h
      simp at h
    · exact ht
  · intro h
    have he := earlyOf_toolResult h
    unfold lineClass
    unfold earlyOf at he
    rcases hs : lineStep l .noEvent with e | r
    · simp only [hs] at he ⊢
      simp at he
      rw [he]
    · simp only [hs] at he
      simp at he

/-- C6 counterexample: in a batch where a subagent-spawn (Task) line
precedes a tool-result line, the spawn early-returns first and the
ToolResult is never seen — the batch classifies as `SubagentSpawn
"deploy"`, not `ToolResult`, refuting "a ToolResult line wins even when a
SubagentSpawn line appears earlier in the same batch". -/
theorem spawn_beats_later_result_cex :
    classifyBatch [spawnL, resultL] = .subagentSpawn "deploy" ∧
    lineToolResult resultL = true ∧
    classifyBatch [spawnL, resultL] ≠ .toolResult := by
  refine ⟨by decide, by decide, by decide⟩

/-- C6 (amended): within a batch, the first early-returning line in file
order wins — a ToolResult-marked line short-circuits provided no
earlier line early-returns (so a ToolResult wins over anything later,
including a later SubagentSpawn, but loses to an earlier SubagentSpawn);
likewise a subagent-spawn line short-circuits when nothing earlier does;
and in a batch with no early return the last-seen Completion or ToolUse
wins (the Task sub-case having been checked before generic tool-use in
`lineStep`). -/
theorem batch_priority_spec :
    (∀ (pre : List LogLine) (l : LogLine) (post : List LogLine),
        (∀ x ∈ pre, earlyOf x = none) → lineToolResult l = true →
        classifyBatch (pre ++ l :: post) = .toolResult) ∧
    (∀ (pre : List LogLine) (l : LogLine) (post : List LogLine) (d : String),
        (∀ x ∈ pre, earlyOf x = none) → earlyOf l = some (.subagentSpawn d) →
        classifyBatch (pre ++ l :: post) = .subagentSpawn d) ∧
    (∀ ls : List LogLine, (∀ x ∈ ls, earlyOf x = none) →
        classifyBatch ls = (ls.map lineClass).foldl
          (fun acc e => if e = .noEvent then acc else e) .noEvent) := by
  refine ⟨fun pre l post hpre hl => ?_, fun pre l post d hpre hl => ?_,
    fun ls h => ?_⟩
  · exact classifyGo_append_early pre l .toolResult hpre (earlyOf_toolResult hl) post _
  · exact classifyGo_append_early pre l (.subagentSpawn d) hpre hl post _
  · exact classifyGo_no_early ls .noEvent h

/-- Witness for `batch_priority_spec`: a tool-result line first in the
batch wins over a later spawn line; a no-early batch yields its last
non-trivial per-line classification. -/
theorem batch_priority_witness :
    classifyBatch ([] ++ resultL :: [spawnL]) = .toolResult ∧
    classifyBatch [bashL] = (([bashL].map lineClass).foldl
      (fun acc e => if e = .noEvent then acc else e) .noEvent) := by
  constructor
  · exact batch_priority_spec.1 [] resultL [spawnL] (by simp) (by decide)
  · exact batch_priority_spec.2.2 [bashL] (by intro x hx; simp at hx; subst hx; decide)

/-- C7 counterexample: a line that is not valid JSON (its parse result is
`none`, and it cannot even start a JSON value) but contains both raw
markers is classified `ToolResult` — the substring test fires before, and
without, any JSON parse, refuting "a line that does not parse as JSON
never produces any classification event (including ToolResult)". -/
theorem nonjson_toolresult_cex :
    badL.parsed = none ∧ jsonStartOk badL.raw = false ∧
    classifyBatch [badL] = .toolResult :=
  ⟨rfl, by decide, by decide⟩

/-- C7 (amended): the Completion/SubagentSpawn/ToolUse classifications
require the line to parse as JSON, and the "stop_reason" substring check
is only a pre-filter before that full parse; the ToolResult
classification, however, is decided purely by the raw substring test
("tool_result" together with `"type":"user"`), with no parse at all. -/
theorem toolresult_needs_no_parse :
    (∀ l : LogLine, classifyBatch [l] = .toolResult ↔ lineToolResult l = true) ∧
    (∀ l : LogLine, lineToolResult l = false → l.parsed = none →
        classifyBatch [l] = .noEvent) ∧
    (∀ l : LogLine, lineToolResult l = false →
        strContains l.raw "stop_reason" = false →
        classifyBatch [l] = .noEvent) := by
  refine ⟨fun l => ?_, fun l h1 h2 => ?_, fun l h1 h2 => ?_⟩
  · rw [classifyBatch_singleton]
    exact lineClass_toolResult_iff l
  · rw [classifyBatch_singleton]
    unfold lineClass lineStep
    by_cases hr : l.raw = ""
    · simp [hr]
    · simp [hr, h1, h2]
  · rw [classifyBatch_singleton]
    unfold lineClass lineStep
    by_cases hr : l.raw = ""
    · simp [hr]
    · simp [hr, h1, h2]

/-- Witness for `toolresult_needs_no_parse`: a non-JSON line with both
markers classifies `ToolResult` by the iff; an unparseable line without
the markers produces no event. -/
theorem toolresult_needs_no_parse_witness :
    classifyBatch [badL] = .toolResult ∧
    classifyBatch [{ raw := "zzz", parsed := none }] = .noEvent := by
  constructor
  · exact (toolresult_needs_no_parse.1 badL).mpr (by decide)
  · exact toolresult_needs_no_parse.2.1 { raw := "zzz", parsed := none } (by decide) rfl

/-- C8: for an assistant record whose message content is the list `cs`,
`needs_approval` is true iff some content item is a tool invocation (type
"tool_use") whose name lies in the fixed approval-gated set
`APPROVAL_TOOLS` = {Bash, Edit, Write, MultiEdit, NotebookEdit}; hence an
invocation of any tool outside that set never sets `needs_approval`. -/
theorem needs_approval_iff (j : Json) (cs : List Json)
    (h : j.ptr ["message", "content"] = some (Json.arr cs)) :
    needsApprovalOf j = true ↔
      ∃ item ∈ cs, ((item.getKey "type").bind Json.asStr) = some "tool_use" ∧
        ∃ n, ((item.getKey "name").bind Json.asStr) = some n ∧
          n ∈ APPROVAL_TOOLS := by
  unfold needsApprovalOf extract_tool_names
  rw [h]
  simp only [Option.some_bind]
  simp only [List.any_eq_true, List.mem_filterMap, List.mem_filter]
  constructor
  · rintro ⟨n, ⟨item, ⟨hmem, htype⟩, hname⟩, hcontains⟩
    refine ⟨item, hmem, by simpa using htype, n, hname, ?_⟩
    simpa using hcontains
  · rintro ⟨item, hmem, htype, n, hname, hset⟩
    refine ⟨n, ⟨item, ⟨hmem, by simpa using htype⟩, hname⟩, ?_⟩
    simpa using hset

/-- Witness for `needs_approval_iff`: the concrete assistant record
invoking Bash computes `needs_approval = true`. -/
theorem needs_approval_witness : needsApprovalOf bashJson = true :=
  (needs_approval_iff bashJson [bashItem] rfl).mpr
    ⟨bashItem, by simp, rfl, "Bash", rfl, by decide⟩

/-- C10: after every call of `check_new_lines` that successfully opens and
reads the file, the recorded offset equals the file size observed at the
start of the call (the offset is advanced before the classification loop
runs, so an early return cannot leave it behind); a batch's lines after
the first early-returning line are never examined in that call; and a
later call on the grown file reads only bytes at or after the previous
size, so the skipped lines are never read again. -/
theorem offset_advances_spec :
    (∀ (old : Option Nat) (size : Nat) (slice : List LogLine),
        (check_new_lines old size slice).1 = size) ∧
    (∀ (pre : List LogLine) (l : LogLine) (post : List LogLine),
        (∀ x ∈ pre, earlyOf x = none) → earlyOf l ≠ none →
        classifyBatch (pre ++ l :: post) = classifyBatch (pre ++ [l])) ∧
    (∀ s1 s2 : Nat, s1 ≤ s2 →
        (checkCursor (some s1) s2).readRange = none ∨
        (checkCursor (some s1) s2).readRange = some (s1, s2)) := by
  refine ⟨fun old size slice => ?_, fun pre l post hpre hl => ?_,
    fun s1 s2 hle => ?_⟩
  · have hoff : (checkCursor old size).offset = size := by
      unfold checkCursor
      rcases old with _ | p
      · simp
      · simp only [Option.getD_some]
        by_cases h1 : size < p
        · simp only [h1, if_true]
          by_cases h0 : size = 0
          · simp [h0]
          · simp [h0]
        · simp only [h1, if_false]
          by_cases h2 : size = p
          · simp [h2]
          · simp [h2]
    unfold check_new_lines
    rcases hcc : checkCursor old size with ⟨o, rr⟩
    rw [hcc] at hoff
    simp at hoff
    rcases rr with _ | r <;> exact hoff
  · obtain ⟨e, he⟩ := Option.ne_none_iff_exists'.mp hl
    unfold classifyBatch
    rw [classifyGo_append_early pre l e hpre he post .noEvent,
      classifyGo_append_early pre l e hpre he [] .noEvent]
  · unfold checkCursor
    have h1 : ¬ s2 < s1 := Nat.not_lt.mpr hle
    by_cases h2 : s2 = s1
    · simp [h1, h2]
    · simp [h1, h2]

/-- Witness for `offset_advances_spec`: the suffix after an
early-returning first line does not change the classification, and a
follow-up read on a grown file starts at the previous size. -/
theorem offset_advances_witness :
    classifyBatch ([] ++ resultL :: [spawnL]) = classifyBatch ([] ++ [resultL]) ∧
    ((checkCursor (some 10) 37).readRange = none ∨
     (checkCursor (some 10) 37).readRange = some (10, 37)) := by
  constructor
  · exact offset_advances_spec.2.1 [] resultL [spawnL] (by simp) (by decide)
  · exact offset_advances_spec.2.2 10 37 (by decide)

/-- The find-and-mark block does not change the stored ids. -/
theorem markFirstQueued_ids (tl : List VoiceEntry) :
    ((markFirstQueued tl).2).map (fun e => e.id) = tl.map (fun e => e.id) := by
  induction tl with
  | nil => rfl
  | cons e rest ih =>
      unfold markFirstQueued
      by_cases h : e.status = "queued"
      · simp [h]
      · simp [h, ih]

/-- When no queued entry is found, the find-and-mark block leaves the
timeline unchanged. -/
theorem markFirstQueued_none (tl : List VoiceEntry)
    (h : (markFirstQueued tl).1 = none) : (markFirstQueued tl).2 = tl := by
  induction tl with
  | nil => rfl
  | cons e rest ih =>
      unfold markFirstQueued at h ⊢
      by_cases hq : e.status = "queued"
      · simp [hq] at h
      · simp only [hq, if_false] at h ⊢
        simp only [List.cons.injEq, true_and]
        exact ih h

/-- If nothing was speaking before, then after the find-and-mark block
the only speaking entry is the one that was picked. -/
theorem markFirstQueued_speaking (tl : List VoiceEntry)
    (hno : ∀ y ∈ tl, y.status ≠ "speaking") :
    ∀ x ∈ (markFirstQueued tl).2, x.status = "speaking" →
      (markFirstQueued tl).1 = some x := by
  induction tl with
  | nil =>
      intro x hx
      simp [markFirstQueued] at hx
  | cons e rest ih =>
      intro x hx hsp
      unfold markFirstQueued at hx ⊢
      by_cases hq : e.status = "queued"
      · simp only [hq, if_true] at hx ⊢
        rcases List.mem_cons.mp hx with hx | hx
        · rw [hx]
        · exact absurd hsp (hno x (List.mem_cons_of_mem e hx))
      · simp only [hq, if_false] at hx ⊢
        rcases List.mem_cons.mp hx with hx | hx
        · subst hx
          exact absurd hsp (hno x (List.mem_cons_self x rest))
        · exact ih (fun y hy => hno y (List.mem_cons_of_mem e hy)) x hx hsp

/-- The completion block does not change the stored ids. -/
theorem markDoneById_ids (tl : List VoiceEntry) (i : Nat) :
    (markDoneById tl i).map (fun e => e.id) = tl.map (fun e => e.id) := by
  induction tl with
  | nil => rfl
  | cons e rest ih =>
      unfold markDoneById
      by_cases h : e.id = i
      · simp [h]
      · simp [h, ih]

/-- If every speaking entry carried the finished id and ids are strictly
increasing, then after the completion block nothing is speaking: the first
entry with the finished id is the unique possible speaking one, and it is
exactly the entry the block marks done. -/
theorem markDoneById_no_speaking (tl : List VoiceEntry) (i : Nat)
    (hsp : ∀ e ∈ tl, e.status = "speaking" → e.id = i)
    (hpw : tl.Pairwise (fun a b => a.id < b.id)) :
    ∀ x ∈ markDoneById tl i, x.status ≠ "speaking" := by
  induction tl with
  | nil =>
      intro x hx
      simp [markDoneById] at hx
  | cons e rest ih =>
      intro x hx
      unfold markDoneById at hx
      rw [List.pairwise_cons] at hpw
      by_cases he : e.id = i
      · simp only [he, if_true] at hx
        rcases List.mem_cons.mp hx with hx | hx
        · rw [hx]
          simp
        · intro hsp'
          have hxi : x.id = i := hsp x (List.mem_cons_of_mem e hx) hsp'
          have hlt := hpw.1 x hx
          omega
      · simp only [he, if_false] at hx
        rcases List.mem_cons.mp hx with hx | hx
        · subst hx
          intro hsp'
          exact he (hsp x (List.mem_cons_self x rest) hsp')
        · exact ih (fun y hy => hsp y (List.mem_cons_of_mem e hy)) hpw.2 x hx

/-- A list whose speaking entries all share one id, with pairwise distinct
ids, has at most one speaking entry. -/
theorem countP_speaking_le_one (l : List VoiceEntry) (i : Nat)
    (hpw : l.Pairwise (fun a b => a.id < b.id))
    (hsp : ∀ e ∈ l, e.status = "speaking" → e.id = i) :
    l.countP (fun e => e.status == "speaking") ≤ 1 := by
  induction l with
  | nil => simp
  | cons e rest ih =>
      rw [List.pairwise_cons] at hpw
      rw [List.countP_cons]
      by_cases hs : e.status = "speaking"
      · have hrest : rest.countP (fun e => e.status == "speaking") = 0 := by
          rw [List.countP_eq_zero]
          intro x hx hxs
          rw [beq_iff_eq] at hxs
          have hxi := hsp x (List.mem_cons_of_mem e hx) hxs
          have hei := hsp e (List.mem_cons_self e rest) hs
          have hlt := hpw.1 x hx
          omega
        rw [hrest]
        split <;> simp
      · have hb : (e.status == "speaking") = false := by
          rw [beq_eq_false_iff_ne]
          exact hs
        rw [hb]
        simpa using ih hpw.2 (fun x hx => hsp x (List.mem_cons_of_mem e hx))

/-- The invariant holds initially. -/
theorem inv_init : Inv initState := by
  refine ⟨?_, ?_, ?_⟩ <;> simp [initState, idsBelow, idsSorted, speakOk]

/-- The invariant is preserved by every adapter enqueue: the fresh entry
carries the allocator's value (larger than every stored id) and status
"queued". -/
theorem inv_enqueue (s : SysState) (entry : VoiceEntry)
    (hid : entry.id = s.nextId) (hst : entry.status = "queued") (h : Inv s) :
    Inv { s with nextId := s.nextId + 1,
                 timeline := enqueueEntry s.timeline entry } := by
  obtain ⟨hb, hp, hw⟩ := h
  rcases s with ⟨tl, nid, isp, wk⟩
  simp only [idsBelow, idsSorted, speakOk] at hb hp hw ⊢
  refine ⟨?_, ?_, ?_⟩
  · intro e he
    have he' := evictLoop_subset _ he
    rcases List.mem_append.mp he' with he' | he'
    · exact Nat.lt_succ_of_lt (hb e he')
    · rw [List.mem_singleton.mp he', hid]
      exact Nat.lt_succ_self _
  · apply evictLoop_pairwise
    rw [List.pairwise_append]
    refine ⟨hp, by simp, ?_⟩
    intro a ha b hbm
    rw [List.mem_singleton.mp hbm, hid]
    exact hb a ha
  · cases wk with
    | idle =>
        intro e he
        have he' := evictLoop_subset _ he
        rcases List.mem_append.mp he' with he' | he'
        · exact hw e he'
        · rw [List.mem_singleton.mp he', hst]
          decide
    | busy i =>
        intro e he hsp
        have he' := evictLoop_subset _ he
        rcases List.mem_append.mp he' with he' | he'
        · exact hw e he' hsp
        · rw [List.mem_singleton.mp he'] at hsp
          rw [hst] at hsp
          exact absurd hsp (by decide)

/-- The invariant is preserved by the worker's find-and-mark step taken
from the top of its loop. -/
theorem inv_start (s : SysState) (hidle : s.worker = .idle) (h : Inv s) :
    Inv (workerStartState s) := by
  obtain ⟨hb, hp, hw⟩ := h
  rcases s with ⟨tl, nid, isp, wk⟩
  simp only at hidle
  subst hidle
  simp only [idsBelow, idsSorted, speakOk] at hb hp hw ⊢
  unfold workerStartState
  rcases hm : markFirstQueued tl with ⟨pick, tl'⟩
  have hids : tl'.map (fun e => e.id) = tl.map (fun e => e.id) := by
    have := markFirstQueued_ids tl
    rw [hm] at this
    exact this
  have hbelow : ∀ e ∈ tl', e.id < nid := by
    intro e he
    have : e.id ∈ tl'.map (fun e => e.id) := List.mem_map_of_mem _ he
    rw [hids] at this
    obtain ⟨y, hy, hyid⟩ := List.mem_map.mp this
    rw [← hyid]
    exact hb y hy
  have hsorted : tl'.Pairwise (fun a b => a.id < b.id) := by
    rw [← List.pairwise_map (f := fun e : VoiceEntry => e.id) (R := (· < ·))] at hp ⊢
    rw [hids]
    exact hp
  rcases pick with _ | e
  · have htl : tl' = tl := by
      have h1 : (markFirstQueued tl).1 = none := by rw [hm]
      have := markFirstQueued_none tl h1
      rw [hm] at this
      exact this
    subst htl
    exact ⟨hb, hp, hw⟩
  · refine ⟨hbelow, hsorted, ?_⟩
    intro x hx hsp
    have hpick : (markFirstQueued tl).1 = some x := by
      have h2 : x ∈ (markFirstQueued tl).2 := by rw [hm]; exact hx
      exact markFirstQueued_speaking tl hw x h2 hsp
    rw [hm] at hpick
    simp only [Option.some_inj] at hpick
    rw [← hpick]

/-- The invariant is preserved by the worker finishing the entry it was
synthesizing. -/
theorem inv_finish (s : SysState) (i : Nat) (hbusy : s.worker = .busy i)
    (h : Inv s) : Inv (workerFinishState s i) := by
  obtain ⟨hb, hp, hw⟩ := h
  rcases s with ⟨tl, nid, isp, wk⟩
  simp only at hbusy
  subst hbusy
  simp only [idsBelow, idsSorted, speakOk] at hb hp hw
  unfold workerFinishState
  have hids : (markDoneById tl i).map (fun e => e.id) = tl.map (fun e => e.id) :=
    markDoneById_ids tl i
  have hbelow : ∀ e ∈ markDoneById tl i, e.id < nid := by
    intro e he
    have : e.id ∈ (markDoneById tl i).map (fun e => e.id) := List.mem_map_of_mem _ he
    rw [hids] at this
    obtain ⟨y, hy, hyid⟩ := List.mem_map.mp this
    rw [← hyid]
    exact hb y hy
  have hsorted : (markDoneById tl i).Pairwise (fun a b => a.id < b.id) := by
    rw [← List.pairwise_map (f := fun e : VoiceEntry => e.id) (R := (· < ·))] at hp ⊢
    rw [hids]
    exact hp
  exact ⟨hbelow, hsorted, markDoneById_no_speaking tl i hw hp⟩

/-- Every allocator-backed step is a step of the full system. -/
theorem allocStep_step {s s' : SysState} (h : AllocStep s s') : Step s s' := by
  cases h with
  | http req now => exact Step.http _ req now
  | mqtt payload now => exact Step.mqtt _ payload now
  | watcher text rate now => exact Step.watcher _ text rate now
  | start h1 => exact Step.start _ h1
  | finish i h1 => exact Step.finish _ i h1

/-- C1 counterexample: the full system (with the `test_voice` enqueue the
program exposes) reaches a state with TWO entries in status "speaking".
Trace: `test_voice` pushes an entry with id `len+1 = 1`; the HTTP handler
pushes "hi" with allocator id 1; the worker speaks and finishes the first
entry; it then marks "hi" speaking, but its finish step
(`find(|e| e.id == entry.id)`) hits the earlier, already-done entry with
the same id, leaving "hi" stuck in "speaking"; a further HTTP enqueue
("ho", id 2) is then marked speaking by the worker — two entries are
"speaking" at once, refuting the claim as stated. -/
theorem two_speaking_cex :
    Reachable cexState ∧ speakingCount cexState.timeline = 2 := by
  constructor
  · have r1 : Reachable
        (⟨[⟨1, 0, "Hello! Voice Tray is working.", "Samantha", 175, some "Test",
            "queued"⟩], 1, false, .idle⟩ : SysState) :=
      Reachable.step Reachable.init (Step.testVoice initState 0)
    have r2 : Reachable ((httpSpeak
        (⟨[⟨1, 0, "Hello! Voice Tray is working.", "Samantha", 175, some "Test",
            "queued"⟩], 1, false, .idle⟩ : SysState)
        { text := "hi", voice := none, agent := none, rate := none } 0).1) :=
      Reachable.step r1 (Step.http _ _ 0)
    have e2 : (httpSpeak
        (⟨[⟨1, 0, "Hello! Voice Tray is working.", "Samantha", 175, some "Test",
            "queued"⟩], 1, false, .idle⟩ : SysState)
        { text := "hi", voice := none, agent := none, rate := none } 0).1 =
        (⟨[⟨1, 0, "Hello! Voice Tray is working.", "Samantha", 175, some "Test",
            "queued"⟩,
           ⟨1, 0, "hi", "Samantha", 220, none, "queued"⟩], 2, false, .idle⟩ : SysState) := by
      simp [httpSpeak, httpEntry, enqueueEntry, evictLoop_eq_drop]
    rw [e2] at r2
    have r3 : Reachable
        (⟨[⟨1, 0, "Hello! Voice Tray is working.", "Samantha", 175, some "Test",
            "speaking"⟩,
           ⟨1, 0, "hi", "Samantha", 220, none, "queued"⟩], 2, true, .busy 1⟩ : SysState) :=
      Reachable.step r2 (Step.start _ rfl)
    have r4 : Reachable
        (⟨[⟨1, 0, "Hello! Voice Tray is working.", "Samantha", 175, some "Test",
            "done"⟩,
           ⟨1, 0, "hi", "Samantha", 220, none, "queued"⟩], 2, false, .idle⟩ : SysState) :=
      Reachable.step r3 (Step.finish _ 1 rfl)
    have r5 : Reachable
        (⟨[⟨1, 0, "Hello! Voice Tray is working.", "Samantha", 175, some "Test",
            "done"⟩,
           ⟨1, 0, "hi", "Samantha", 220, none, "speaking"⟩], 2, true, .busy 1⟩ : SysState) :=
      Reachable.step r4 (Step.start _ rfl)
    have r6 : Reachable
        (⟨[⟨1, 0, "Hello! Voice Tray is working.", "Samantha", 175, some "Test",
            "done"⟩,
           ⟨1, 0, "hi", "Samantha", 220, none, "speaking"⟩], 2, false, .idle⟩ : SysState) :=
      Reachable.step r5 (Step.finish _ 1 rfl)
    have r7 : Reachable ((httpSpeak
        (⟨[⟨1, 0, "Hello! Voice Tray is working.", "Samantha", 175, some "Test",
            "done"⟩,
           ⟨1, 0, "hi", "Samantha", 220, none, "speaking"⟩], 2, false, .idle⟩ : SysState)
        { text := "ho", voice := none, agent := none, rate := none } 0).1) :=
      Reachable.step r6 (Step.http _ _ 0)
    have e7 : (httpSpeak
        (⟨[⟨1, 0, "Hello! Voice Tray is working.", "Samantha", 175, some "Test",
            "done"⟩,
           ⟨1, 0, "hi", "Samantha", 220, none, "speaking"⟩], 2, false, .idle⟩ : SysState)
        { text := "ho", voice := none, agent := none, rate := none } 0).1 =
        (⟨[⟨1, 0, "Hello! Voice Tray is working.", "Samantha", 175, some "Test",
            "done"⟩,
           ⟨1, 0, "hi", "Samantha", 220, none, "speaking"⟩,
           ⟨2, 0, "ho", "Samantha", 220, none, "queued"⟩], 3, false, .idle⟩ : SysState) := by
      simp [httpSpeak, httpEntry, enqueueEntry, evictLoop_eq_drop]
    rw [e7] at r7
    exact Reachable.step r7 (Step.start _ rfl)
  · decide

/-- C1 (amended): in every state reachable by interleaving worker steps
with enqueues through the allocator-backed ingestion paths (HTTP, broker,
watcher announce), at most one entry has status "speaking": the
find-and-mark step is a single atomic mutation under the store lock and
the worker only performs it between synthesis invocations.  The
`test_voice` command is excluded: its `len+1` id can collide with an
allocator id and break the invariant (see the counterexample). -/
theorem at_most_one_speaking (s : SysState) (h : AllocReachable s) :
    speakingCount s.timeline ≤ 1 := by
  have hinv : Inv s := by
    induction h with
    | init => exact inv_init
    | step hr hst ih =>
        cases hst with
        | http req now => exact inv_enqueue _ _ rfl rfl ih
        | mqtt payload now =>
            cases payload with
            | none => exact ih
            | some req => exact inv_enqueue _ _ rfl rfl ih
        | watcher text rate now => exact inv_enqueue _ _ rfl rfl ih
        | start hidle => exact inv_start _ hidle ih
        | finish i hbusy => exact inv_finish _ i hbusy ih
  obtain ⟨hb, hp, hw⟩ := hinv
  unfold speakOk at hw
  unfold speakingCount
  cases hwk : s.worker with
  | idle =>
      rw [hwk] at hw
      have : s.timeline.countP (fun e => e.status == "speaking") = 0 := by
        rw [List.countP_eq_zero]
        intro x hx hxs
        rw [beq_iff_eq] at hxs
        exact hw x hx hxs
      omega
  | busy i =>
      rw [hwk] at hw
      exact countP_speaking_le_one s.timeline i hp hw

/-- Witness for `at_most_one_speaking`: a concrete three-step execution —
one HTTP enqueue followed by the worker picking it up — reaches a state
with at most one speaking entry. -/
theorem at_most_one_speaking_witness :
    speakingCount ((workerStartState (httpSpeak initState
      { text := "hi", voice := none, agent := none, rate := none } 0).1).timeline) ≤ 1 :=
  at_most_one_speaking _
    (AllocReachable.step
      (AllocReachable.step AllocReachable.init
        (AllocStep.http initState
          { text := "hi", voice := none, agent := none, rate := none } 0))
      (AllocStep.start _ rfl))

/-- The timeout check does nothing when no tool use is pending. -/
theorem timerCheck_none {s : WatcherState} (h : s.pendingToolUse = none)
    (t : Nat) : timerCheck s t = (s, []) := by
  unfold timerCheck
  rw [h]
  split <;> rfl

/-- Idle wake-ups with no pending tool use leave the watcher state
untouched and announce nothing. -/
theorem run_idles_none {s : WatcherState} (h : s.pendingToolUse = none)
    (ts : List Nat) :
    runWatcher s (ts.map (fun t => (Wake.idle, t))) = (s, []) := by
  induction ts with
  | nil => rfl
  | cons t ts' ih =>
      simp only [List.map_cons, runWatcher, loopIter, timerCheck_none h]
      simpa using ih

/-- Idle wake-ups whose times all lie within the 15 s window of the
pending tool use leave the watcher state untouched and announce
nothing. -/
theorem run_idles_no_fire {s : WatcherState} {t0 : Nat}
    (hp : s.pendingToolUse = some t0) (ts : List Nat)
    (h : ∀ t ∈ ts, ¬ t0 + 15 < t) :
    runWatcher s (ts.map (fun t => (Wake.idle, t))) = (s, []) := by
  induction ts with
  | nil => rfl
  | cons t ts' ih =>
      have hnot : ¬ 15 < t - t0 := by
        have := h t (List.mem_cons_self t ts')
        omega
      have hstep : timerCheck s t = (s, []) := by
        unfold timerCheck
        rw [hp]
        split
        · simp [hnot]
        · rfl
      simp only [List.map_cons, runWatcher, loopIter, hstep]
      simpa using ih (fun x hx => h x (List.mem_cons_of_mem t hx))

/-- Splitting a watcher run over concatenated traces. -/
theorem runWatcher_append (s : WatcherState) (l1 l2 : List (Wake × Nat)) :
    runWatcher s (l1 ++ l2) =
      ((runWatcher (runWatcher s l1).1 l2).1,
       (runWatcher s l1).2 ++ (runWatcher (runWatcher s l1).1 l2).2) := by
  induction l1 generalizing s with
  | nil => simp [runWatcher]
  | cons p l1' ih =>
      rcases p with ⟨w, t⟩
      simp only [List.cons_append, runWatcher, List.append_eq]
      rw [ih]
      simp [List.append_assoc]

/-- The timeout check cannot fire at the very instant the pending marker
was set (zero elapsed time). -/
theorem timerCheck_fresh {s : WatcherState} {t0 : Nat}
    (hp : s.pendingToolUse = some t0) : timerCheck s t0 = (s, []) := by
  unfold timerCheck
  rw [hp]
  split
  · simp
  · rfl

/-- A needs-approval tool use seen in Normal mode with nothing pending
starts the pending marker at the current time and announces nothing. -/
theorem loopIter_toolUse {s : WatcherState} (hm : s.permMode = .normal)
    (hp : s.pendingToolUse = none) (t0 : Nat) :
    loopIter s (.line (.toolUse true)) t0 =
      ({ s with pendingToolUse := some t0 }, []) := by
  have hcond : (decide (s.permMode = PermissionMode.normal) && true &&
      s.pendingToolUse.isNone) = true := by
    rw [hm, hp]
    rfl
  simp only [loopIter, handleLine, hcond, if_true]
  rw [@timerCheck_fresh { s with pendingToolUse := some t0 } t0 rfl]
  rfl

/-- A tool result clears the pending marker and announces nothing. -/
theorem loopIter_toolResult (s : WatcherState) (t : Nat) :
    loopIter s (.line .toolResult) t =
      ({ s with pendingToolUse := none }, []) := by
  simp only [loopIter, handleLine]
  rw [@timerCheck_none { s with pendingToolUse := none } rfl t]
  rfl

/-- Counting "action needed" announcements over idle wake-ups after a
pending tool use at `t0`: the first wake-up past the 15 s window fires
once — announcing iff the 10 s debounce allows — and nothing fires after
that (the marker is cleared); if no wake-up is late enough, nothing is
ever announced. -/
theorem run_idles_pending (s : WatcherState) (t0 : Nat) (ts : List Nat)
    (hm : s.permMode = .normal) (hp : s.pendingToolUse = some t0) :
    approvalCount (runWatcher s (ts.map (fun t => (Wake.idle, t)))).2 =
      match ts.find? (fun t => decide (t0 + 15 < t)) with
      | none => 0
      | some tf => if approvalDebounceOk s.lastApprovalNotify tf then 1 else 0 := by
  induction ts generalizing s with
  | nil => simp [runWatcher, approvalCount]
  | cons t ts' ih =>
      by_cases hfire : t0 + 15 < t
      · have h15 : 15 < t - t0 := by omega
        by_cases hdeb : approvalDebounceOk s.lastApprovalNotify t = true
        · have hstep : timerCheck s t =
              ({ s with pendingToolUse := none, lastApprovalNotify := some t },
               [("Action needed, please approve", 240)]) := by
            unfold timerCheck
            rw [hm, hp]
            simp [h15, hdeb]
          have hrest : runWatcher
              { s with pendingToolUse := none, lastApprovalNotify := some t }
              (ts'.map (fun t => (Wake.idle, t))) =
              ({ s with pendingToolUse := none, lastApprovalNotify := some t }, []) :=
            run_idles_none rfl ts'
          simp only [List.map_cons, runWatcher, loopIter, hstep, hrest]
          simp [approvalCount, List.find?, hfire, hdeb]
        · rw [Bool.not_eq_true] at hdeb
          have hstep : timerCheck s t =
              ({ s with pendingToolUse := none }, []) := by
            unfold timerCheck
            rw [hm, hp]
            simp [h15, hdeb]
          have hrest : runWatcher { s with pendingToolUse := none }
              (ts'.map (fun t => (Wake.idle, t))) =
              ({ s with pendingToolUse := none }, []) :=
            run_idles_none rfl ts'
          simp only [List.map_cons, runWatcher, loopIter, hstep, hrest]
          simp [approvalCount, List.find?, hfire, hdeb]
      · have h15 : ¬ 15 < t - t0 := by omega
        have hstep : timerCheck s t = (s, []) := by
          unfold timerCheck
          rw [hm, hp]
          simp [h15]
        simp only [List.map_cons, runWatcher, loopIter, hstep]
        have hfind : (t :: ts').find? (fun t => decide (t0 + 15 < t)) =
            ts'.find? (fun t => decide (t0 + 15 < t)) := by
          simp [List.find?, hfire]
        rw [hfind]
        simpa using ih s hm hp

/-- C4: under Normal permission mode, (a) a needs-approval ToolUse
followed by a ToolResult within the 15-second approval timeout — with any
intervening idle timer checks — never produces an "action needed"
announcement; (b) a needs-approval ToolUse with no ToolResult produces
exactly one "Action needed, please approve" announcement at the first
timer check past the timeout when the 10-second approval debounce allows
it, exactly zero when the debounce suppresses it, and zero when no check
falls past the timeout. -/
theorem approval_timeout_spec :
    (∀ (s : WatcherState) (t0 t1 : Nat) (ts : List Nat),
        s.permMode = .normal → s.pendingToolUse = none →
        (∀ t ∈ ts, t ≤ t1) → t1 ≤ t0 + 15 →
        approvalCount (runWatcher s ((Wake.line (.toolUse true), t0) ::
          (ts.map (fun t => (Wake.idle, t)) ++ [(Wake.line .toolResult, t1)]))).2 = 0) ∧
    (∀ (s : WatcherState) (t0 : Nat) (ts : List Nat),
        s.permMode = .normal → s.pendingToolUse = none →
        approvalCount (runWatcher s ((Wake.line (.toolUse true), t0) ::
          ts.map (fun t => (Wake.idle, t)))).2 =
          match ts.find? (fun t => decide (t0 + 15 < t)) with
          | none => 0
          | some tf => if approvalDebounceOk s.lastApprovalNotify tf then 1 else 0) := by
  constructor
  · intro s t0 t1 ts hm hp hts ht1
    simp only [runWatcher, loopIter_toolUse hm hp t0]
    have hnf : runWatcher { s with pendingToolUse := some t0 }
        (ts.map (fun t => (Wake.idle, t))) =
        ({ s with pendingToolUse := some t0 }, []) := by
      apply run_idles_no_fire rfl
      intro t ht
      have := hts t ht
      omega
    rw [runWatcher_append, hnf]
    simp only [runWatcher, loopIter_toolResult]
    simp [approvalCount]
  · intro s t0 ts hm hp
    simp only [runWatcher, loopIter_toolUse hm hp t0]
    have := run_idles_pending { s with pendingToolUse := some t0 } t0 ts hm rfl
    simpa using this

/-- Witness for `approval_timeout_spec`: a ToolUse at t=0 resolved by a
ToolResult at t=12 (with an idle check at t=10) announces nothing; a
ToolUse at t=0 with only an idle check at t=16 announces exactly once. -/
theorem approval_timeout_witness :
    approvalCount (runWatcher watcherInit
      ((Wake.line (.toolUse true), 0) ::
        ([10].map (fun t => (Wake.idle, t)) ++ [(Wake.line .toolResult, 12)]))).2 = 0 ∧
    approvalCount (runWatcher watcherInit
      ((Wake.line (.toolUse true), 0) :: [16].map (fun t => (Wake.idle, t)))).2 = 1 := by
  constructor
  · exact approval_timeout_spec.1 watcherInit 0 12 [10] rfl rfl (by simp) (by omega)
  · have h := approval_timeout_spec.2 watcherInit 0 [16] rfl rfl
    simpa using h

end OracleVoice
